import Mathlib

/-!
Verification development for the Zpace disk-space scanner
(src/zpace/core.py, src/zpace/config.py).

Shallow embedding conventions:

* A filesystem object is an `FSEntry`: a regular file (with the on-disk
  size the scanner would compute for it, i.e. st_blocks * 512 on Unix),
  a directory with its list of children, or a symbolic link (for which,
  with follow_symlinks=False, neither is_dir nor is_file holds).
* Per-entry OS failures are modelled by flags: `statErr` on a file means
  entry.stat() raises (FileNotFoundError / PermissionError / OSError);
  `listErr` on a directory means os.scandir() on it raises.
* An absolute path is represented by its component list in the style of
  Python's Path.parts: "/var/run" is ["/", "var", "run"].  os.scandir's
  entry.path (parent + os.sep + name) is parentPath ++ [name], and
  len(Path(p).parts) is List.length.  Real scandir names are non-empty
  and contain no separator, so this representation is faithful.
* Python str.lower() on the ASCII table keys is modelled by mapping
  Char.toLower over the characters; str.endswith by a suffix check on
  the character lists; dict building (later binding wins) by a fold.
* The tqdm progress bar and its byte buffer are omitted: they are a
  write-only side channel and touch none of the four outputs.
-/

namespace Zpace

/-- A path as its component list, in the style of Python's Path.parts. -/
abbrev FPath := List String

/-- An observation stored in a category bucket: (size, path). -/
abbrev Obs := Nat × FPath

/-- The category map built during a scan: association list from category
name to the list of observations appended for it, in insertion order
(models the defaultdict of lists in scan_files_and_dirs). -/
abbrev CatMap := List (String × List Obs)

/-- A filesystem entry as the scanner can observe it. -/
inductive FSEntry : Type where
  | file (name : String) (size : Nat) (statErr : Bool)
  | dir (name : String) (children : List FSEntry) (listErr : Bool)
  | symlink (name : String)

/-- Python str.lower() restricted to ASCII, as Lean's Char.toLower. -/
def strLower (s : String) : String := ⟨s.data.map Char.toLower⟩

/-- Python str.endswith(suffix), on character lists. -/
def str_ends_with (s suffix : String) : Bool := suffix.data.isSuffixOf s.data

/-- Python dict semantics for a {k: v for ...} comprehension read through
.get: the LAST binding of a key wins. -/
def dictGet (pairs : List (String × String)) (k : String) : Option String :=
  pairs.foldl (fun acc kv => if kv.1 = k then some kv.2 else acc) none

/-- Flattening of a category table {cat: {keys}} into (key, cat) pairs, as
the dict comprehensions building EXTENSION_MAP / SPECIAL_DIR_MAP do. -/
def buildMap (tbl : List (String × List String)) : List (String × String) :=
  tbl.flatMap (fun p => p.2.map (fun k => (k, p.1)))

/-- config.py MIN_FILE_SIZE = 100 * 1024. -/
def MIN_FILE_SIZE : Nat := 100 * 1024

/-- config.py DEFAULT_TOP_N. -/
def DEFAULT_TOP_N : Nat := 10

/-- config.py SKIP_DIRS, each absolute path as its component list. -/
def SKIP_DIRS : List FPath :=
  [["/", "dev"], ["/", "proc"], ["/", "sys"], ["/", "run"],
   ["/", "var", "run"], ["/", "snap"], ["/", "boot"], ["/", "lost+found"],
   ["/", "System"], ["/", "Library"], ["/", "private", "var"],
   ["/", ".Spotlight-V100"], ["/", ".DocumentRevisions-V100"],
   ["/", ".fseventsd"]]

/-- config.py DEEPEST_SKIP_LEVEL. -/
def DEEPEST_SKIP_LEVEL : Nat := 3

/-- config.py DEFAULT_CATEGORIES (the shipped table; the user-config merge
is startup I/O outside the scanner core). -/
def DEFAULT_CATEGORIES : List (String × List String) :=
  [("Pictures",
    [".jpg", ".jpeg", ".png", ".gif", ".bmp", ".tiff", ".svg", ".webp",
     ".heic", ".ico", ".raw", ".avif"]),
   ("Documents",
    [".doc", ".docx", ".pdf", ".txt", ".xls", ".xlsx", ".ppt", ".pptx",
     ".odt", ".rtf", ".md", ".epub", ".mobi", ".pages", ".numbers", ".key"]),
   ("Music",
    [".mp3", ".wav", ".aac", ".flac", ".m4a", ".ogg", ".wma", ".opus", ".aiff"]),
   ("Videos",
    [".mp4", ".avi", ".mkv", ".mov", ".wmv", ".flv", ".webm", ".m4v",
     ".mts", ".vob", ".3gp"]),
   ("Code",
    [".py", ".js", ".html", ".css", ".java", ".cpp", ".c", ".rb", ".go",
     ".rs", ".ts", ".jsx", ".tsx", ".ipynb", ".sh", ".bash", ".zsh",
     ".ps1", ".swift", ".kt", ".scala", ".php", ".vue", ".svelte", ".h", ".hpp"]),
   ("Archives",
    [".tar", ".gz", ".zip", ".rar", ".7z", ".bz2", ".xz", ".tgz", ".lz", ".zst"]),
   ("Disk Images",
    [".iso", ".dmg", ".img", ".vdi", ".vmdk", ".qcow2", ".vhd", ".vhdx"]),
   ("Config",
    [".yml", ".yaml", ".json", ".toml", ".xml", ".ini", ".env", ".conf"]),
   ("ML Models",
    [".pt", ".pth", ".onnx", ".keras", ".safetensors", ".tflite", ".gguf",
     ".pkl", ".pb", ".ckpt"]),
   ("Databases",
    [".db", ".sqlite", ".sqlite3", ".h5", ".hdf5", ".parquet", ".mdb",
     ".accdb", ".dbf", ".csv", ".tsv", ".avro", ".duckdb"]),
   ("3D Models",
    [".obj", ".fbx", ".stl", ".blend", ".gltf", ".glb"]),
   ("Executables",
    [".exe", ".dll", ".so", ".dylib"])]

/-- config.py DEFAULT_SPECIAL_DIRS (the shipped table). -/
def DEFAULT_SPECIAL_DIRS : List (String × List String) :=
  [("Virtual Environments",
    [".venv", "venv", "env", "virtualenv", ".virtualenv", "conda",
     ".conda", "miniconda3", "anaconda3"]),
   ("Node Modules", ["node_modules"]),
   ("Build Artifacts",
    ["target", "build", "dist", ".gradle", ".cargo", "out", ".next",
     ".nuxt", ".svelte-kit", ".turbo", ".bazel", "bazel-bin", "bazel-out"]),
   ("Package Caches",
    [".npm", ".yarn", ".m2", ".pip", "__pycache__", ".cache", ".pnpm",
     ".uv", "vendor", ".bundle", ".bun", ".deno", "homebrew"]),
   ("IDE Config", [".idea", ".vscode", ".vs", ".eclipse", ".fleet"]),
   ("Git Repos", [".git"]),
   ("Temp Files", ["tmp", "temp", ".tmp"]),
   ("ML Artifacts", ["weights", "checkpoints", "pretrained"])]

/-- config.py EXTENSION_MAP: extension -> category pairs. -/
def EXTENSION_MAP : List (String × String) := buildMap DEFAULT_CATEGORIES

/-- config.py SPECIAL_DIR_MAP: directory name -> category pairs. -/
def SPECIAL_DIR_MAP : List (String × String) := buildMap DEFAULT_SPECIAL_DIRS

/-- core.py categorize_extension: case-insensitive lookup with fallback
"Others".  The extension includes its leading dot. -/
def categorize_extension (extension : String) : String :=
  (dictGet EXTENSION_MAP (strLower extension)).getD "Others"

/-- core.py is_skip_path: exact membership of the absolute path in SKIP_DIRS. -/
def is_skip_path (dirpath : FPath) : Bool := SKIP_DIRS.contains dirpath

/-- core.py identify_special_dir_name: ".app" bundles first, then the
case-insensitive name-map lookup. -/
def identify_special_dir_name (dirname : String) : Option String :=
  if str_ends_with dirname ".app" then some "macOS Apps"
  else dictGet SPECIAL_DIR_MAP (strLower dirname)

mutual
/-- core.py calculate_dir_size_recursive on one entry of a listing: a
statable file contributes its on-disk size, a subdirectory its recursive
total (0 if it cannot be listed), anything else (symlink, failing stat)
contributes nothing; errors are swallowed, never raised. -/
def calculate_entry_size : FSEntry → Nat
  | FSEntry.file _ size statErr => if statErr then 0 else size
  | FSEntry.dir _ children listErr =>
      if listErr then 0 else calculate_dir_size_list children
  | FSEntry.symlink _ => 0

/-- Sum of calculate_entry_size over one directory listing. -/
def calculate_dir_size_list : List FSEntry → Nat
  | [] => 0
  | e :: rest => calculate_entry_size e + calculate_dir_size_list rest
end

/-- core.py calculate_dir_size_recursive applied to a directory path: 0
when the listing fails, else the sum over its children. -/
def calculate_dir_size_recursive : FSEntry → Nat :=
  calculate_entry_size

/-- The extension part of os.path.splitext(name) for a bare name (no
separator): the suffix from the last dot, unless every character before
that dot is itself a dot (then the extension is empty). -/
def splitext_ext (name : String) : String :=
  let cs := name.data
  match cs.reverse.findIdx? (fun ch => ch = '.') with
  | none => ""
  | some k =>
      let i := cs.length - 1 - k
      if (cs.take i).all (fun ch => ch = '.') then "" else ⟨cs.drop i⟩

/-- Append one observation to a category's bucket, creating the bucket on
first use (defaultdict(list) followed by .append). -/
def appendCat (m : CatMap) (cat : String) (v : Obs) : CatMap :=
  match m with
  | [] => [(cat, [v])]
  | (c, l) :: rest =>
      if c = cat then (c, l ++ [v]) :: rest else (c, l) :: appendCat rest cat v

/-- Look a category's bucket up (missing categories read as empty). -/
def getCat (m : CatMap) (cat : String) : List Obs :=
  match m with
  | [] => []
  | (c, l) :: rest => if c = cat then l else getCat rest cat

/-- The scanner's accumulator: the two category maps, the file counter and
the byte total of scan_files_and_dirs. -/
structure ScanState where
  fileCats : CatMap
  dirCats : CatMap
  files : Nat
  size : Nat
deriving DecidableEq

/-- A work-stack frame: the directory entry to list, its absolute path and
its recorded level (the path's part count). -/
abbrev Frame := FSEntry × FPath × Nat

mutual
/-- Structural weight of an entry, for the loop's termination measure. -/
def entryWeight : FSEntry → Nat
  | FSEntry.file _ _ _ => 1
  | FSEntry.dir _ children _ => 1 + entryWeightList children
  | FSEntry.symlink _ => 1

/-- Structural weight of a list of entries. -/
def entryWeightList : List FSEntry → Nat
  | [] => 0
  | e :: rest => entryWeight e + entryWeightList rest
end

/-- Weight of a frame, for the loop's termination measure. -/
def frameWeight (f : Frame) : Nat := entryWeight f.1

/-- Weight of a work stack. -/
def stackWeight (st : List Frame) : Nat := (st.map frameWeight).sum

/-- The body of the scandir loop of scan_files_and_dirs for one child
entry of the directory at parentPath (listed at the recorded level):
skipped system dirs and symlinks change nothing; a special directory is
sized atomically, admitted to dirCats iff its size reaches min_size, and
never scheduled; a normal directory is appended to dirs_to_visit; a
statable file is counted and admitted to fileCats iff its size reaches
min_size; a failing stat skips that entry alone. -/
def processEntry (minSize level : Nat) (parentPath : FPath)
    (acc : ScanState × List Frame) : FSEntry → ScanState × List Frame
  | FSEntry.dir name children listErr =>
      if level ≤ DEEPEST_SKIP_LEVEL ∧ is_skip_path (parentPath ++ [name]) then acc
      else
        match identify_special_dir_name name with
        | some cat =>
            ({ acc.1 with
                dirCats :=
                  if minSize ≤ calculate_dir_size_recursive (FSEntry.dir name children listErr)
                  then appendCat acc.1.dirCats cat
                    (calculate_dir_size_recursive (FSEntry.dir name children listErr),
                     parentPath ++ [name])
                  else acc.1.dirCats,
                size := acc.1.size + calculate_dir_size_recursive (FSEntry.dir name children listErr) },
             acc.2)
        | none =>
            (acc.1, acc.2 ++ [(FSEntry.dir name children listErr, parentPath ++ [name], level + 1)])
  | FSEntry.file name size statErr =>
      if statErr then acc
      else
        ({ acc.1 with
            fileCats :=
              if minSize ≤ size
              then appendCat acc.1.fileCats (categorize_extension (splitext_ext name))
                (size, parentPath ++ [name])
              else acc.1.fileCats,
            files := acc.1.files + 1,
            size := acc.1.size + size },
         acc.2)
  | FSEntry.symlink _ => acc

/-- One full directory listing: fold the loop body over the children,
collecting dirs_to_visit. -/
def processChildren (minSize level : Nat) (parentPath : FPath)
    (children : List FSEntry) (s : ScanState) : ScanState × List Frame :=
  children.foldl (processEntry minSize level parentPath) (s, [])

/-- Push dirs_to_visit onto the stack in order (so the last is popped
first), as the for-loop of stack.append calls does. -/
def pushAll (toVisit : List Frame) (stack : List Frame) : List Frame :=
  toVisit.foldl (fun st f => f :: st) stack

/-- The while-stack loop of scan_files_and_dirs.  Popping a listable
directory processes its children and pushes the collected subdirectory
frames; a frame whose listing fails (or is not a directory, when scandir
raises NotADirectoryError, an OSError) is dropped and the loop continues. -/
def scanLoop (minSize : Nat) : List Frame → ScanState → ScanState
  | [], s => s
  | (FSEntry.dir _ children listErr, path, level) :: rest, s =>
      if listErr then scanLoop minSize rest s
      else
        scanLoop minSize
          (pushAll (processChildren minSize level path children s).2 rest)
          (processChildren minSize level path children s).1
  | (FSEntry.file _ _ _, _, _) :: rest, s => scanLoop minSize rest s
  | (FSEntry.symlink _, _, _) :: rest, s => scanLoop minSize rest s
  termination_by stack _ => stackWeight stack
  decreasing_by
  · simp only [stackWeight, List.map_cons, List.sum_cons, frameWeight, entryWeight]
    omega
  · have hpush : ∀ (tv st : List Frame),
        stackWeight (pushAll tv st) = stackWeight tv + stackWeight st := by
      intro tv
      induction tv with
      | nil => intro st; simp [pushAll, stackWeight]
      | cons f tf ih =>
        intro st
        have h1 : pushAll (f :: tf) st = pushAll tf (f :: st) := rfl
        rw [h1, ih (f :: st)]
        simp only [stackWeight, List.map_cons, List.sum_cons]
        omega
    have hstep : ∀ (acc : ScanState × List Frame) (e : FSEntry),
        stackWeight (processEntry minSize level path acc e).2 ≤
          stackWeight acc.2 + entryWeight e := by
      intro acc e
      cases e with
      | file n sz se =>
        by_cases h : se = true <;>
          simp [processEntry, h, entryWeight]
      | symlink n => simp [processEntry, entryWeight]
      | dir n cs le =>
        by_cases h : level ≤ DEEPEST_SKIP_LEVEL ∧ is_skip_path (path ++ [n])
        · simp [processEntry, h]
        · cases hid : identify_special_dir_name n with
          | some cat => simp [processEntry, h, hid]
          | none =>
            simp only [processEntry, if_neg h, hid, stackWeight,
              List.map_append, List.sum_append, List.map_cons, List.sum_cons,
              List.map_nil, List.sum_nil, frameWeight, entryWeight]
            omega
    have hfold : ∀ (cs : List FSEntry) (acc : ScanState × List Frame),
        stackWeight ((cs.foldl (processEntry minSize level path) acc).2) ≤
          stackWeight acc.2 + entryWeightList cs := by
      intro cs
      induction cs with
      | nil => intro acc; simp [entryWeightList]
      | cons e cs ih =>
        intro acc
        have h2 := hstep acc e
        have h3 := ih (processEntry minSize level path acc e)
        simp only [List.foldl_cons, entryWeightList] at *
        omega
    have h4 := hfold children (s, [])
    have h6 : stackWeight ((s, (([] : List Frame))).2) = 0 := by
      simp [stackWeight]
    simp only [processChildren]
    rw [hpush]
    simp only [stackWeight, List.map_cons, List.sum_cons, frameWeight, entryWeight]
    simp only [stackWeight] at h4 h6
    omega
  · simp only [stackWeight, List.map_cons, List.sum_cons, frameWeight, entryWeight]
    omega
  · simp only [stackWeight, List.map_cons, List.sum_cons, frameWeight, entryWeight]
    omega

/-- core.py scan_files_and_dirs: start from the scan root at
len(root_path.parts) and run the stack loop.  The tree below the root is
given as the root's FSEntry. -/
def scan_files_and_dirs (minSize : Nat) (rootPath : FPath) (root : FSEntry) : ScanState :=
  scanLoop minSize [(root, rootPath, rootPath.length)] ⟨[], [], 0, 0⟩

/-- Variant loop body for the refinement claim: identical to processEntry
except that is_skip_path is evaluated unconditionally, with no depth
bound. -/
def processEntryU (minSize level : Nat) (parentPath : FPath)
    (acc : ScanState × List Frame) : FSEntry → ScanState × List Frame
  | FSEntry.dir name children listErr =>
      if is_skip_path (parentPath ++ [name]) then acc
      else
        match identify_special_dir_name name with
        | some cat =>
            ({ acc.1 with
                dirCats :=
                  if minSize ≤ calculate_dir_size_recursive (FSEntry.dir name children listErr)
                  then appendCat acc.1.dirCats cat
                    (calculate_dir_size_recursive (FSEntry.dir name children listErr),
                     parentPath ++ [name])
                  else acc.1.dirCats,
                size := acc.1.size + calculate_dir_size_recursive (FSEntry.dir name children listErr) },
             acc.2)
        | none =>
            (acc.1, acc.2 ++ [(FSEntry.dir name children listErr, parentPath ++ [name], level + 1)])
  | FSEntry.file name size statErr =>
      if statErr then acc
      else
        ({ acc.1 with
            fileCats :=
              if minSize ≤ size
              then appendCat acc.1.fileCats (categorize_extension (splitext_ext name))
                (size, parentPath ++ [name])
              else acc.1.fileCats,
            files := acc.1.files + 1,
            size := acc.1.size + size },
         acc.2)
  | FSEntry.symlink _ => acc

/-- One full directory listing of the unconditional-skip variant. -/
def processChildrenU (minSize level : Nat) (parentPath : FPath)
    (children : List FSEntry) (s : ScanState) : ScanState × List Frame :=
  children.foldl (processEntryU minSize level parentPath) (s, [])

/-- The stack loop of the unconditional-skip variant. -/
def scanLoopU (minSize : Nat) : List Frame → ScanState → ScanState
  | [], s => s
  | (FSEntry.dir _ children listErr, path, level) :: rest, s =>
      if listErr then scanLoopU minSize rest s
      else
        scanLoopU minSize
          (pushAll (processChildrenU minSize level path children s).2 rest)
          (processChildrenU minSize level path children s).1
  | (FSEntry.file _ _ _, _, _) :: rest, s => scanLoopU minSize rest s
  | (FSEntry.symlink _, _, _) :: rest, s => scanLoopU minSize rest s
  termination_by stack _ => stackWeight stack
  decreasing_by
  · simp only [stackWeight, List.map_cons, List.sum_cons, frameWeight, entryWeight]
    omega
  · have hpush : ∀ (tv st : List Frame),
        stackWeight (pushAll tv st) = stackWeight tv + stackWeight st := by
      intro tv
      induction tv with
      | nil => intro st; simp [pushAll, stackWeight]
      | cons f tf ih =>
        intro st
        have h1 : pushAll (f :: tf) st = pushAll tf (f :: st) := rfl
        rw [h1, ih (f :: st)]
        simp only [stackWeight, List.map_cons, List.sum_cons]
        omega
    have hstep : ∀ (acc : ScanState × List Frame) (e : FSEntry),
        stackWeight (processEntryU minSize level path acc e).2 ≤
          stackWeight acc.2 + entryWeight e := by
      intro acc e
      cases e with
      | file n sz se =>
        by_cases h : se = true <;>
          simp [processEntryU, h, entryWeight]
      | symlink n => simp [processEntryU, entryWeight]
      | dir n cs le =>
        by_cases h : is_skip_path (path ++ [n]) = true
        · simp [processEntryU, h]
        · cases hid : identify_special_dir_name n with
          | some cat => simp [processEntryU, h, hid]
          | none =>
            simp only [processEntryU, if_neg h, hid, stackWeight,
              List.map_append, List.sum_append, List.map_cons, List.sum_cons,
              List.map_nil, List.sum_nil, frameWeight, entryWeight]
            omega
    have hfold : ∀ (cs : List FSEntry) (acc : ScanState × List Frame),
        stackWeight ((cs.foldl (processEntryU minSize level path) acc).2) ≤
          stackWeight acc.2 + entryWeightList cs := by
      intro cs
      induction cs with
      | nil => intro acc; simp [entryWeightList]
      | cons e cs ih =>
        intro acc
        have h2 := hstep acc e
        have h3 := ih (processEntryU minSize level path acc e)
        simp only [List.foldl_cons, entryWeightList] at *
        omega
    have h4 := hfold children (s, [])
    have h6 : stackWeight ((s, (([] : List Frame))).2) = 0 := by
      simp [stackWeight]
    simp only [processChildrenU]
    rw [hpush]
    simp only [stackWeight, List.map_cons, List.sum_cons, frameWeight, entryWeight]
    simp only [stackWeight] at h4 h6
    omega
  · simp only [stackWeight, List.map_cons, List.sum_cons, frameWeight, entryWeight]
    omega
  · simp only [stackWeight, List.map_cons, List.sum_cons, frameWeight, entryWeight]
    omega

/-- The scan with the unconditional-skip variant loop. -/
def scan_files_and_dirs_unconditional_skip (minSize : Nat) (rootPath : FPath)
    (root : FSEntry) : ScanState :=
  scanLoopU minSize [(root, rootPath, rootPath.length)] ⟨[], [], 0, 0⟩

/-- Stable descending insertion by size: the new observation goes before
the first strictly smaller one, so equal sizes keep their original order,
as Python's stable sorted(..., key=size, reverse=True) does. -/
def sortedInsertDesc (v : Obs) : List Obs → List Obs
  | [] => [v]
  | x :: xs => if x.1 ≤ v.1 then v :: x :: xs else x :: sortedInsertDesc v xs

/-- Python sorted(entries, key=size, reverse=True): a stable descending
sort by size. -/
def sortDesc (l : List Obs) : List Obs := l.foldr sortedInsertDesc []

/-- core.py get_top_n_per_category: per category, sort descending by size
and keep the first top_n. -/
def get_top_n_per_category (categorized : CatMap) (top_n : Nat) : CatMap :=
  categorized.map (fun p => (p.1, (sortDesc p.2).take top_n))

mutual
/-- Specification count of the regular, non-symlink, statable files the
scan counts under one child entry: nothing under a skipped system path
(unconditional exact match), nothing under a special (atomic) directory,
nothing under an unlistable directory, and no symlink. -/
def countFiles (parentPath : FPath) : FSEntry → Nat
  | FSEntry.file _ _ statErr => if statErr then 0 else 1
  | FSEntry.dir name children listErr =>
      if is_skip_path (parentPath ++ [name]) then 0
      else if (identify_special_dir_name name).isSome then 0
      else if listErr then 0
      else countFilesList (parentPath ++ [name]) children
  | FSEntry.symlink _ => 0

/-- Sum of countFiles over one directory listing. -/
def countFilesList (parentPath : FPath) : List FSEntry → Nat
  | [] => 0
  | e :: rest => countFiles parentPath e + countFilesList parentPath rest
end

/-- Specification count of counted files strictly below the scan root:
the root itself is listed without skip or special checks. -/
def root_file_count (rootPath : FPath) : FSEntry → Nat
  | FSEntry.dir _ children listErr =>
      if listErr then 0 else countFilesList rootPath children
  | _ => 0

/-- Count contributed by one work-stack frame. -/
def frame_file_count (f : Frame) : Nat := root_file_count f.2.1 f.1

/-- Count contributed by a whole work stack. -/
def stack_file_count (st : List Frame) : Nat := (st.map frame_file_count).sum

/-- Relation between the scan state at threshold minSize and the state of
the same scan at threshold 0: counters agree, and every bucket at
threshold minSize is the size-filtered bucket of the threshold-0 run. -/
def FilterInv (minSize : Nat) (s0 s : ScanState) : Prop :=
  s.files = s0.files ∧ s.size = s0.size ∧
  (∀ c, getCat s.fileCats c = (getCat s0.fileCats c).filter (fun v => decide (minSize ≤ v.1))) ∧
  (∀ c, getCat s.dirCats c = (getCat s0.dirCats c).filter (fun v => decide (minSize ≤ v.1)))

/-- Well-formedness of a work stack: each frame's recorded level is the
part count of its path, as scan_files_and_dirs establishes at the root
and descent preserves. -/
def FramesLevelOK (st : List Frame) : Prop :=
  ∀ f ∈ st, f.2.2 = f.2.1.length

/-- Eleven sizeable extensionless files, used to exhibit the unbounded
in-scan buckets. -/
def elevenFilesChildren : List FSEntry :=
  [FSEntry.file "f01" 1 false, FSEntry.file "f02" 2 false,
   FSEntry.file "f03" 3 false, FSEntry.file "f04" 4 false,
   FSEntry.file "f05" 5 false, FSEntry.file "f06" 6 false,
   FSEntry.file "f07" 7 false, FSEntry.file "f08" 8 false,
   FSEntry.file "f09" 9 false, FSEntry.file "f10" 10 false,
   FSEntry.file "f11" 11 false]

/-- Concrete tree with eleven sizeable extensionless files. -/
def elevenFiles : FSEntry := FSEntry.dir "data" elevenFilesChildren false

/-! Helper lemmas. -/

theorem char_toLower_idem (c : Char) : c.toLower.toLower = c.toLower := by
  unfold Char.toLower
  by_cases h : c.toNat ≥ 65 ∧ c.toNat ≤ 90
  · have h1 := h.1
    have h2 := h.2
    have hv : (c.toNat + 32).isValidChar := by
      left
      omega
    have hn : (Char.ofNat (c.toNat + 32)).toNat = c.toNat + 32 := by
      simp [Char.ofNat, dif_pos hv]
      rfl
    simp only [if_pos h, hn]
    rw [if_neg (by omega)]
  · simp [h]

theorem strLower_idem (s : String) : strLower (strLower s) = strLower s := by
  simp only [strLower, List.map_map]
  congr 1
  exact List.map_congr_left (fun a _ => char_toLower_idem a)

theorem skip_path_length (p : FPath) (h : is_skip_path p = true) : p.length ≤ 3 := by
  have h2 : p ∈ SKIP_DIRS := by
    simpa [is_skip_path] using h
  simp only [SKIP_DIRS, List.mem_cons, List.not_mem_nil, or_false] at h2
  rcases h2 with rfl | rfl | rfl | rfl | rfl | rfl | rfl | rfl | rfl | rfl | rfl | rfl | rfl | rfl <;>
    decide

theorem skip_special_none (p : FPath) (name : String)
    (h : is_skip_path (p ++ [name]) = true) :
    identify_special_dir_name name = none := by
  have h2 : p ++ [name] ∈ SKIP_DIRS := by
    simpa [is_skip_path] using h
  simp only [SKIP_DIRS, List.mem_cons, List.not_mem_nil, or_false] at h2
  rcases h2 with h2 | h2 | h2 | h2 | h2 | h2 | h2 | h2 | h2 | h2 | h2 | h2 | h2 | h2 <;>
    (have hn := congrArg List.getLast? h2
     simp at hn
     subst hn
     decide)

/-! Claim theorems: classifier. -/

/-- C8: categorize_extension is total and case-insensitive: it reads the
category of the lowercased extension from the extension table, returns the
configured category on a hit, the fallback "Others" on a miss (the empty
extension included), and never fails. -/
theorem claim_C8 (extension : String) :
    categorize_extension extension = (dictGet EXTENSION_MAP (strLower extension)).getD "Others"
    ∧ categorize_extension (strLower extension) = categorize_extension extension
    ∧ (∀ c, dictGet EXTENSION_MAP (strLower extension) = some c →
        categorize_extension extension = c)
    ∧ (dictGet EXTENSION_MAP (strLower extension) = none →
        categorize_extension extension = "Others")
    ∧ categorize_extension "" = "Others" := by
  refine ⟨rfl, ?_, ?_, ?_, by decide⟩
  · simp [categorize_extension, strLower_idem]
  · intro c h
    simp [categorize_extension, h]
  · intro h
    simp [categorize_extension, h]

/-- C8 witness: a concrete unmapped extension falls back to "Others". -/
theorem claim_C8_witness : categorize_extension "zzz" = "Others" :=
  (claim_C8 "zzz").2.2.2.1 (by decide)

/-! Claim theorems: per-entry frame effects. -/

/-- C9: a child directory whose absolute path matches the skip set while
the listing is shallow enough changes nothing: counters, both category
maps and the work stack are exactly as before. -/
theorem claim_C9 (minSize level : Nat) (parentPath : FPath) (s : ScanState)
    (tv : List Frame) (name : String) (children : List FSEntry) (listErr : Bool)
    (h1 : level ≤ DEEPEST_SKIP_LEVEL)
    (h2 : is_skip_path (parentPath ++ [name]) = true) :
    processEntry minSize level parentPath (s, tv)
      (FSEntry.dir name children listErr) = (s, tv) := by
  simp [processEntry, h1, h2]

/-- C9 witness: skipping /dev at level 1 leaves the empty state intact. -/
theorem claim_C9_witness :
    processEntry 0 1 ["/"] (⟨[], [], 0, 0⟩, [])
      (FSEntry.dir "dev" [] false) = (⟨[], [], 0, 0⟩, []) :=
  claim_C9 0 1 ["/"] ⟨[], [], 0, 0⟩ [] "dev" [] false (by decide) (by decide)

/-- C10: a symlink (neither is_dir nor is_file with follow_symlinks=False)
changes nothing when processed: counters, category maps and work stack are
untouched and nothing is scheduled for traversal. -/
theorem claim_C10 (minSize level : Nat) (parentPath : FPath)
    (acc : ScanState × List Frame) (name : String) :
    processEntry minSize level parentPath acc (FSEntry.symlink name) = acc := rfl

/-- C4: a directory matched by identify_special_dir_name is handled as an
atomic unit: its recursive size is added to the byte total
unconditionally, it enters the directory categories iff that size reaches
the minimum, the file counter is untouched, and it is never pushed onto
the work stack (so the loop never lists it). -/
theorem claim_C4 (minSize level : Nat) (parentPath : FPath) (s : ScanState)
    (tv : List Frame) (name cat : String) (children : List FSEntry) (listErr : Bool)
    (h : identify_special_dir_name name = some cat) :
    processEntry minSize level parentPath (s, tv)
        (FSEntry.dir name children listErr) =
      ({ s with
          dirCats :=
            if minSize ≤ calculate_dir_size_recursive (FSEntry.dir name children listErr)
            then appendCat s.dirCats cat
              (calculate_dir_size_recursive (FSEntry.dir name children listErr),
               parentPath ++ [name])
            else s.dirCats,
          size := s.size + calculate_dir_size_recursive (FSEntry.dir name children listErr) },
       tv) := by
  have hsk : is_skip_path (parentPath ++ [name]) = false := by
    cases hc : is_skip_path (parentPath ++ [name]) with
    | false => rfl
    | true =>
      have hnone := skip_special_none parentPath name hc
      rw [hnone] at h
      cases h
  simp [processEntry, hsk, h]

/-- C4 witness: a node_modules child is recorded atomically, sized 7, and
nothing is pushed. -/
theorem claim_C4_witness :
    processEntry 0 4 ["/", "home"] (⟨[], [], 0, 0⟩, [])
        (FSEntry.dir "node_modules" [FSEntry.file "a" 7 false] false) =
      (⟨[], [("Node Modules", [(7, ["/", "home", "node_modules"])])], 0, 7⟩, []) :=
  claim_C4 0 4 ["/", "home"] ⟨[], [], 0, 0⟩ [] "node_modules" "Node Modules"
    [FSEntry.file "a" 7 false] false (by decide)

/-- Helper: listing sums split over append. -/
theorem calculate_dir_size_list_append (xs ys : List FSEntry) :
    calculate_dir_size_list (xs ++ ys) =
      calculate_dir_size_list xs + calculate_dir_size_list ys := by
  induction xs with
  | nil => simp [calculate_dir_size_list]
  | cons e xs ih =>
    simp only [List.cons_append, calculate_dir_size_list]
    have ih2 : calculate_dir_size_list (xs.append ys) =
        calculate_dir_size_list xs + calculate_dir_size_list ys := ih
    rw [ih2]
    omega

/-- C7: per-entry OS errors never propagate: a file whose stat fails and a
directory whose listing fails contribute nothing to the recursive size
(siblings still count), an unlistable directory sizes to 0 rather than
raising, a failing stat in the scan loop changes nothing, and a popped
frame whose listing fails is dropped with the state intact. -/
theorem claim_C7 (minSize level : Nat) (parentPath : FPath)
    (acc : ScanState × List Frame) (name dname : String) (sz : Nat)
    (children : List FSEntry) (xs ys : List FSEntry) (rest : List Frame)
    (p : FPath) (lv : Nat) (s : ScanState) :
    calculate_dir_size_list (xs ++ FSEntry.file name sz true :: ys)
        = calculate_dir_size_list (xs ++ ys)
    ∧ calculate_dir_size_list (xs ++ FSEntry.dir name children true :: ys)
        = calculate_dir_size_list (xs ++ ys)
    ∧ calculate_dir_size_recursive (FSEntry.dir name children true) = 0
    ∧ processEntry minSize level parentPath acc (FSEntry.file name sz true) = acc
    ∧ scanLoop minSize ((FSEntry.dir dname children true, p, lv) :: rest) s
        = scanLoop minSize rest s := by
  refine ⟨?_, ?_, ?_, ?_, ?_⟩
  · simp [calculate_dir_size_list_append, calculate_dir_size_list,
      calculate_entry_size]
  · simp [calculate_dir_size_list_append, calculate_dir_size_list,
      calculate_entry_size]
  · simp [calculate_dir_size_recursive, calculate_entry_size]
  · simp [processEntry]
  · simp [scanLoop]

/-! Sorting lemmas for the snapshot. -/

theorem sortedInsertDesc_perm (v : Obs) (l : List Obs) :
    (sortedInsertDesc v l).Perm (v :: l) := by
  induction l with
  | nil => simp [sortedInsertDesc]
  | cons x xs ih =>
    by_cases h : x.1 ≤ v.1
    · simp [sortedInsertDesc, h]
    · simp only [sortedInsertDesc, if_neg h]
      exact (ih.cons x).trans (List.Perm.swap v x xs)

theorem sortDesc_perm (l : List Obs) : (sortDesc l).Perm l := by
  induction l with
  | nil => simp [sortDesc]
  | cons x xs ih =>
    have h1 : sortDesc (x :: xs) = sortedInsertDesc x (sortDesc xs) := rfl
    rw [h1]
    exact (sortedInsertDesc_perm x (sortDesc xs)).trans (ih.cons x)

theorem sortedInsertDesc_pairwise (v : Obs) (l : List Obs)
    (h : l.Pairwise (fun a b => b.1 ≤ a.1)) :
    (sortedInsertDesc v l).Pairwise (fun a b => b.1 ≤ a.1) := by
  induction l with
  | nil => simp [sortedInsertDesc]
  | cons x xs ih =>
    rcases List.pairwise_cons.mp h with ⟨hx, hxs⟩
    by_cases hc : x.1 ≤ v.1
    · simp only [sortedInsertDesc, if_pos hc]
      refine List.pairwise_cons.mpr ⟨?_, h⟩
      intro b hb
      rcases List.mem_cons.mp hb with rfl | hb
      · exact hc
      · exact le_trans (hx b hb) hc
    · simp only [sortedInsertDesc, if_neg hc]
      refine List.pairwise_cons.mpr ⟨?_, ih hxs⟩
      intro b hb
      have hb2 : b ∈ v :: xs := (sortedInsertDesc_perm v xs).mem_iff.mp hb
      rcases List.mem_cons.mp hb2 with rfl | hb2
      · omega
      · exact hx b hb2

theorem sortDesc_pairwise (l : List Obs) :
    (sortDesc l).Pairwise (fun a b => b.1 ≤ a.1) := by
  induction l with
  | nil => simp [sortDesc]
  | cons x xs ih =>
    have h1 : sortDesc (x :: xs) = sortedInsertDesc x (sortDesc xs) := rfl
    rw [h1]
    exact sortedInsertDesc_pairwise x (sortDesc xs) ih

theorem getCat_get_top_n (m : CatMap) (n : Nat) (c : String) :
    getCat (get_top_n_per_category m n) c = (sortDesc (getCat m c)).take n := by
  induction m with
  | nil => simp [get_top_n_per_category, getCat, sortDesc]
  | cons p rest ih =>
    obtain ⟨pc, pl⟩ := p
    by_cases h : pc = c
    · simp [get_top_n_per_category, getCat, h]
    · simp only [get_top_n_per_category, List.map_cons, getCat, if_neg h]
      exact ih

/-- C1: the reported snapshot of any category holds at most top_n entries,
is sorted in descending order of size, and every size in it is at least
every size that was admitted to that category but excluded from the
snapshot. -/
theorem claim_C1 (m : CatMap) (top_n : Nat) (c : String) :
    (getCat (get_top_n_per_category m top_n) c).length ≤ top_n
    ∧ (getCat (get_top_n_per_category m top_n) c).Pairwise (fun a b => b.1 ≤ a.1)
    ∧ ∀ a ∈ getCat (get_top_n_per_category m top_n) c,
        ∀ b ∈ getCat m c,
          b ∉ getCat (get_top_n_per_category m top_n) c → b.1 ≤ a.1 := by
  rw [getCat_get_top_n]
  refine ⟨List.length_take_le top_n _, ?_, ?_⟩
  · exact List.Pairwise.sublist (List.take_sublist _ _) (sortDesc_pairwise _)
  · intro a ha b hb hnb
    have hbs : b ∈ sortDesc (getCat m c) := (sortDesc_perm _).mem_iff.mpr hb
    have hsplit := List.take_append_drop top_n (sortDesc (getCat m c))
    have hbtd : b ∈ (sortDesc (getCat m c)).take top_n ++
        (sortDesc (getCat m c)).drop top_n := by
      rw [hsplit]
      exact hbs
    have hbd : b ∈ (sortDesc (getCat m c)).drop top_n := by
      rcases List.mem_append.mp hbtd with h1 | h1
      · exact absurd h1 hnb
      · exact h1
    have hp : ((sortDesc (getCat m c)).take top_n ++
        (sortDesc (getCat m c)).drop top_n).Pairwise (fun a b => b.1 ≤ a.1) := by
      rw [hsplit]
      exact sortDesc_pairwise _
    exact (List.pairwise_append.mp hp).2.2 a ha b hbd

/-- C1 witness: with two admitted sizes 3 and 5 and top_n = 1, the
excluded size 3 is bounded by the retained size 5. -/
theorem claim_C1_witness : ((3 : Nat), ([] : FPath)).1 ≤ ((5 : Nat), ([] : FPath)).1 :=
  (claim_C1 [("X", [((3 : Nat), ([] : FPath)), ((5 : Nat), ([] : FPath))])] 1 "X").2.2
    (5, []) (by decide) (3, []) (by decide) (by decide)

/-! Equivalence of the depth-bounded and unconditional skip checks. -/

theorem processEntry_eq_U (minSize level : Nat) (p : FPath) (hlp : level = p.length)
    (acc : ScanState × List Frame) (e : FSEntry) :
    processEntry minSize level p acc e = processEntryU minSize level p acc e := by
  cases e with
  | file name sz statErr => rfl
  | symlink name => rfl
  | dir name children listErr =>
    cases hsk : is_skip_path (p ++ [name]) with
    | true =>
      have hlen : (p ++ [name]).length ≤ 3 := skip_path_length _ hsk
      have hlev : level ≤ DEEPEST_SKIP_LEVEL := by
        simp only [DEEPEST_SKIP_LEVEL]
        simp only [List.length_append, List.length_singleton] at hlen
        omega
      simp [processEntry, processEntryU, hsk, hlev]
    | false =>
      simp [processEntry, processEntryU, hsk]

theorem processEntry_frames_ok (minSize level : Nat) (p : FPath)
    (hlp : level = p.length) (acc : ScanState × List Frame) (e : FSEntry)
    (hacc : FramesLevelOK acc.2) :
    FramesLevelOK (processEntry minSize level p acc e).2 := by
  cases e with
  | file name sz statErr => cases statErr <;> exact hacc
  | symlink name => exact hacc
  | dir name children listErr =>
    by_cases hsk : level ≤ DEEPEST_SKIP_LEVEL ∧ is_skip_path (p ++ [name]) = true
    · have h2 : (processEntry minSize level p acc (FSEntry.dir name children listErr)).2
          = acc.2 := by
        simp [processEntry, hsk]
      rw [h2]
      exact hacc
    · cases hid : identify_special_dir_name name with
      | some cat =>
        have h2 : (processEntry minSize level p acc (FSEntry.dir name children listErr)).2
            = acc.2 := by
          simp [processEntry, hsk, hid]
        rw [h2]
        exact hacc
      | none =>
        have h2 : (processEntry minSize level p acc (FSEntry.dir name children listErr)).2
            = acc.2 ++ [(FSEntry.dir name children listErr, p ++ [name], level + 1)] := by
          simp [processEntry, hsk, hid]
        rw [h2]
        intro f hf
        rcases List.mem_append.mp hf with hf | hf
        · exact hacc f hf
        · rcases List.mem_singleton.mp hf with rfl
          simp [hlp]

theorem foldl_processEntry_eq_U (minSize level : Nat) (p : FPath)
    (hlp : level = p.length) (cs : List FSEntry) :
    ∀ acc, cs.foldl (processEntry minSize level p) acc
      = cs.foldl (processEntryU minSize level p) acc := by
  induction cs with
  | nil => intro acc; rfl
  | cons e cs ih =>
    intro acc
    simp only [List.foldl_cons]
    rw [processEntry_eq_U minSize level p hlp acc e]
    exact ih _

theorem processChildren_eq_U (minSize level : Nat) (p : FPath)
    (hlp : level = p.length) (cs : List FSEntry) (s : ScanState) :
    processChildren minSize level p cs s = processChildrenU minSize level p cs s :=
  foldl_processEntry_eq_U minSize level p hlp cs (s, [])

theorem foldl_frames_ok (minSize level : Nat) (p : FPath)
    (hlp : level = p.length) (cs : List FSEntry) :
    ∀ acc, FramesLevelOK acc.2 →
      FramesLevelOK ((cs.foldl (processEntry minSize level p) acc).2) := by
  induction cs with
  | nil => intro acc h; exact h
  | cons e cs ih =>
    intro acc h
    simp only [List.foldl_cons]
    exact ih _ (processEntry_frames_ok minSize level p hlp acc e h)

theorem mem_pushAll (tv rest : List Frame) (f : Frame) :
    f ∈ pushAll tv rest ↔ f ∈ tv ∨ f ∈ rest := by
  induction tv generalizing rest with
  | nil => simp [pushAll]
  | cons x tv ih =>
    have h1 : pushAll (x :: tv) rest = pushAll tv (x :: rest) := rfl
    rw [h1, ih]
    simp [List.mem_cons]
    tauto

theorem scanLoop_eq_U (minSize : Nat) (stack : List Frame) (s : ScanState) :
    FramesLevelOK stack → scanLoop minSize stack s = scanLoopU minSize stack s := by
  induction stack, s using scanLoop.induct minSize with
  | case1 s =>
    intro _
    simp [scanLoop, scanLoopU]
  | case2 name children path level rest s ih =>
    intro hok
    have hrest : FramesLevelOK rest := fun f hf => hok f (List.mem_cons_of_mem _ hf)
    simp only [scanLoop, scanLoopU, if_true]
    exact ih hrest
  | case3 name children listErr path level rest s hle ih =>
    intro hok
    have hlp : level = path.length :=
      hok (FSEntry.dir name children listErr, path, level) (List.mem_cons_self _ _)
    have hrest : FramesLevelOK rest := fun f hf => hok f (List.mem_cons_of_mem _ hf)
    have htv : FramesLevelOK ((processChildren minSize level path children s).2) := by
      apply foldl_frames_ok minSize level path hlp children (s, [])
      intro f hf
      simp at hf
    have hpush2 : FramesLevelOK
        (pushAll (processChildren minSize level path children s).2 rest) := by
      intro f hf
      rcases (mem_pushAll _ _ f).mp hf with hf | hf
      · exact htv f hf
      · exact hrest f hf
    have hstep : scanLoop minSize ((FSEntry.dir name children listErr, path, level) :: rest) s
        = scanLoop minSize (pushAll (processChildren minSize level path children s).2 rest)
            (processChildren minSize level path children s).1 := by
      simp [scanLoop, hle]
    have hstepU : scanLoopU minSize ((FSEntry.dir name children listErr, path, level) :: rest) s
        = scanLoopU minSize (pushAll (processChildrenU minSize level path children s).2 rest)
            (processChildrenU minSize level path children s).1 := by
      simp [scanLoopU, hle]
    rw [hstep, hstepU, ← processChildren_eq_U minSize level path hlp children s]
    exact ih hpush2
  | case4 name sz statErr fst snd rest s ih =>
    intro hok
    have hrest : FramesLevelOK rest := fun f hf => hok f (List.mem_cons_of_mem _ hf)
    simp only [scanLoop, scanLoopU]
    exact ih hrest
  | case5 name fst snd rest s ih =>
    intro hok
    have hrest : FramesLevelOK rest := fun f hf => hok f (List.mem_cons_of_mem _ hf)
    simp only [scanLoop, scanLoopU]
    exact ih hrest

/-- C6: with the shipped skip set and depth bound, the depth-conditioned
skip check produces exactly the same four outputs as evaluating
is_skip_path unconditionally at every depth, on every input tree and
every scan root. -/
theorem claim_C6 (minSize : Nat) (rootPath : FPath) (root : FSEntry) :
    scan_files_and_dirs minSize rootPath root
      = scan_files_and_dirs_unconditional_skip minSize rootPath root := by
  apply scanLoop_eq_U
  intro f hf
  rcases List.mem_singleton.mp hf with rfl
  rfl

/-! File counting. -/

theorem stack_file_count_pushAll (tv rest : List Frame) :
    stack_file_count (pushAll tv rest)
      = stack_file_count tv + stack_file_count rest := by
  induction tv generalizing rest with
  | nil => simp [pushAll, stack_file_count]
  | cons f tv ih =>
    have h1 : pushAll (f :: tv) rest = pushAll tv (f :: rest) := rfl
    rw [h1, ih]
    simp only [stack_file_count, List.map_cons, List.sum_cons]
    omega

theorem processEntryU_count (minSize level : Nat) (p : FPath)
    (acc : ScanState × List Frame) (e : FSEntry) :
    (processEntryU minSize level p acc e).1.files
        + stack_file_count (processEntryU minSize level p acc e).2
      = acc.1.files + stack_file_count acc.2 + countFiles p e := by
  cases e with
  | file name sz statErr =>
    cases statErr
    · simp [processEntryU, countFiles]
      omega
    · simp [processEntryU, countFiles]
  | symlink name => simp [processEntryU, countFiles]
  | dir name children listErr =>
    cases hsk : is_skip_path (p ++ [name]) with
    | true => simp [processEntryU, countFiles, hsk]
    | false =>
      cases hid : identify_special_dir_name name with
      | some cat =>
        simp [processEntryU, countFiles, hsk, hid]
      | none =>
        simp only [processEntryU, hsk, hid, countFiles, stack_file_count,
          List.map_append, List.sum_append, List.map_cons, List.sum_cons,
          List.map_nil, List.sum_nil, frame_file_count, root_file_count,
          Bool.false_eq_true, if_false, Option.isSome_none]
        simp [root_file_count]
        omega

theorem foldl_processEntryU_count (minSize level : Nat) (p : FPath)
    (cs : List FSEntry) : ∀ acc : ScanState × List Frame,
    ((cs.foldl (processEntryU minSize level p) acc).1).files
        + stack_file_count ((cs.foldl (processEntryU minSize level p) acc).2)
      = acc.1.files + stack_file_count acc.2 + countFilesList p cs := by
  induction cs with
  | nil => intro acc; simp [countFilesList]
  | cons e cs ih =>
    intro acc
    simp only [List.foldl_cons, countFilesList]
    have h1 := processEntryU_count minSize level p acc e
    have h2 := ih (processEntryU minSize level p acc e)
    omega

theorem scanLoopU_files (minSize : Nat) (stack : List Frame) (s : ScanState) :
    (scanLoopU minSize stack s).files = s.files + stack_file_count stack := by
  induction stack, s using scanLoopU.induct minSize with
  | case1 s => simp [scanLoopU, stack_file_count]
  | case2 name children path level rest s ih =>
    simp only [scanLoopU, if_true]
    rw [ih]
    simp [stack_file_count, frame_file_count, root_file_count]
  | case3 name children listErr path level rest s hle ih =>
    have hstep : scanLoopU minSize ((FSEntry.dir name children listErr, path, level) :: rest) s
        = scanLoopU minSize (pushAll (processChildrenU minSize level path children s).2 rest)
            (processChildrenU minSize level path children s).1 := by
      simp [scanLoopU, hle]
    rw [hstep, ih]
    have hfold := foldl_processEntryU_count minSize level path children (⟨s, []⟩ : ScanState × List Frame)
    rw [stack_file_count_pushAll]
    have hle2 : listErr = false := by
      cases listErr
      · rfl
      · exact absurd rfl hle
    subst hle2
    simp only [processChildrenU] at *
    simp only [stack_file_count, List.map_cons, List.sum_cons, frame_file_count,
      root_file_count, Bool.false_eq_true, if_false, List.map_nil,
      List.sum_nil] at *
    omega
  | case4 name sz statErr fst snd rest s ih =>
    simp only [scanLoopU]
    rw [ih]
    simp [stack_file_count, frame_file_count, root_file_count]
  | case5 name fst snd rest s ih =>
    simp only [scanLoopU]
    rw [ih]
    simp [stack_file_count, frame_file_count, root_file_count]

/-- C3: the reported file counter equals the number of statable regular
non-symlink files strictly below the scan root, with every file inside a
skipped system path or inside a matched special directory excluded, and
it is the same for every minimum-size threshold. -/
theorem claim_C3 (minSize : Nat) (rootPath : FPath) (root : FSEntry) :
    (scan_files_and_dirs minSize rootPath root).files = root_file_count rootPath root
    ∧ (scan_files_and_dirs minSize rootPath root).files
        = (scan_files_and_dirs 0 rootPath root).files := by
  have h1 : ∀ m : Nat,
      (scan_files_and_dirs m rootPath root).files = root_file_count rootPath root := by
    intro m
    have h2 : scan_files_and_dirs m rootPath root
        = scanLoopU m [(root, rootPath, rootPath.length)] ⟨[], [], 0, 0⟩ := by
      show scanLoop m [(root, rootPath, rootPath.length)] ⟨[], [], 0, 0⟩ = _
      apply scanLoop_eq_U
      intro f hf
      rcases List.mem_singleton.mp hf with rfl
      rfl
    rw [h2, scanLoopU_files]
    simp [stack_file_count, frame_file_count]
  exact ⟨h1 minSize, by rw [h1 minSize, h1 0]⟩

/-! Threshold filtering. -/

theorem getCat_appendCat (mm : CatMap) (cat : String) (v : Obs) (c : String) :
    getCat (appendCat mm cat v) c
      = if cat = c then getCat mm c ++ [v] else getCat mm c := by
  induction mm with
  | nil =>
    by_cases h : cat = c <;> simp [appendCat, getCat, h]
  | cons p rest ih =>
    obtain ⟨pc, pl⟩ := p
    by_cases h1 : pc = cat
    · subst h1
      by_cases h2 : pc = c
      · subst h2
        simp [appendCat, getCat]
      · simp [appendCat, getCat, h2]
    · by_cases h2 : pc = c
      · subst h2
        have h3 : cat ≠ pc := fun hh => h1 hh.symm
        simp [appendCat, getCat, h1, h3]
      · simp [appendCat, getCat, h1, h2, ih]

theorem processEntry_filter (m lv : Nat) (p : FPath)
    (acc0 acc : ScanState × List Frame) (e : FSEntry)
    (hst : FilterInv m acc0.1 acc.1) (htv : acc0.2 = acc.2) :
    FilterInv m (processEntry 0 lv p acc0 e).1 (processEntry m lv p acc e).1
    ∧ (processEntry 0 lv p acc0 e).2 = (processEntry m lv p acc e).2 := by
  obtain ⟨hf, hsz, hfc, hdc⟩ := hst
  cases e with
  | symlink name => exact ⟨⟨hf, hsz, hfc, hdc⟩, htv⟩
  | file name sz statErr =>
    cases statErr with
    | true => exact ⟨⟨hf, hsz, hfc, hdc⟩, htv⟩
    | false =>
      refine ⟨⟨by simp [processEntry, hf], by simp [processEntry, hsz], ?_,
        by intro c; simp [processEntry, hdc c]⟩, by simp [processEntry, htv]⟩
      intro c
      simp only [processEntry, Bool.false_eq_true, if_false]
      rw [if_pos (Nat.zero_le sz)]
      by_cases hm : m ≤ sz
      · rw [if_pos hm]
        rw [getCat_appendCat, getCat_appendCat]
        by_cases hc : categorize_extension (splitext_ext name) = c
        · simp [hc, List.filter_append, hfc c, hm]
        · simp [hc, hfc c]
      · rw [if_neg hm]
        rw [getCat_appendCat]
        by_cases hc : categorize_extension (splitext_ext name) = c
        · simp [hc, List.filter_append, hfc c, hm]
        · simp [hc, hfc c]
  | dir name children listErr =>
    by_cases hsk : lv ≤ DEEPEST_SKIP_LEVEL ∧ is_skip_path (p ++ [name]) = true
    · have h0 : processEntry 0 lv p acc0 (FSEntry.dir name children listErr) = acc0 := by
        simp [processEntry, hsk]
      have hm0 : processEntry m lv p acc (FSEntry.dir name children listErr) = acc := by
        simp [processEntry, hsk]
      rw [h0, hm0]
      exact ⟨⟨hf, hsz, hfc, hdc⟩, htv⟩
    · cases hid : identify_special_dir_name name with
      | none =>
        have h0 : processEntry 0 lv p acc0 (FSEntry.dir name children listErr)
            = (acc0.1, acc0.2 ++
                [(FSEntry.dir name children listErr, p ++ [name], lv + 1)]) := by
          simp [processEntry, hsk, hid]
        have hm0 : processEntry m lv p acc (FSEntry.dir name children listErr)
            = (acc.1, acc.2 ++
                [(FSEntry.dir name children listErr, p ++ [name], lv + 1)]) := by
          simp [processEntry, hsk, hid]
        rw [h0, hm0]
        exact ⟨⟨hf, hsz, hfc, hdc⟩, by rw [htv]⟩
      | some cat =>
        refine ⟨⟨by simp [processEntry, hsk, hid, hf],
          by simp [processEntry, hsk, hid, hsz], ?_, ?_⟩,
          by simp [processEntry, hsk, hid, htv]⟩
        · intro c
          simp [processEntry, hsk, hid, hfc c]
        · intro c
          simp only [processEntry, hsk, hid]
          rw [if_pos (Nat.zero_le _)]
          by_cases hm : m ≤ calculate_dir_size_recursive (FSEntry.dir name children listErr)
          · rw [if_pos hm]
            by_cases hc : cat = c
            · simp [getCat_appendCat, hc, List.filter_append, hdc c, hm]
            · simp [getCat_appendCat, hc, hdc c]
          · rw [if_neg hm]
            by_cases hc : cat = c
            · simp [getCat_appendCat, hc, List.filter_append, hdc c, hm]
            · simp [getCat_appendCat, hc, hdc c]

theorem foldl_processEntry_filter (m lv : Nat) (p : FPath) (cs : List FSEntry) :
    ∀ acc0 acc : ScanState × List Frame, FilterInv m acc0.1 acc.1 → acc0.2 = acc.2 →
      FilterInv m ((cs.foldl (processEntry 0 lv p) acc0).1)
          ((cs.foldl (processEntry m lv p) acc).1)
      ∧ (cs.foldl (processEntry 0 lv p) acc0).2
          = (cs.foldl (processEntry m lv p) acc).2 := by
  induction cs with
  | nil => intro acc0 acc h1 h2; exact ⟨h1, h2⟩
  | cons e cs ih =>
    intro acc0 acc h1 h2
    simp only [List.foldl_cons]
    have h3 := processEntry_filter m lv p acc0 acc e h1 h2
    exact ih _ _ h3.1 h3.2

theorem scanLoop_filter (m : Nat) (stack : List Frame) (s : ScanState) :
    ∀ s0, FilterInv m s0 s →
      FilterInv m (scanLoop 0 stack s0) (scanLoop m stack s) := by
  induction stack, s using scanLoop.induct m with
  | case1 s =>
    intro s0 h
    simpa [scanLoop] using h
  | case2 name children path level rest s ih =>
    intro s0 h
    have h1 : scanLoop m ((FSEntry.dir name children true, path, level) :: rest) s
        = scanLoop m rest s := by simp [scanLoop]
    have h2 : scanLoop 0 ((FSEntry.dir name children true, path, level) :: rest) s0
        = scanLoop 0 rest s0 := by simp [scanLoop]
    rw [h1, h2]
    exact ih s0 h
  | case3 name children listErr path level rest s hle ih =>
    intro s0 h
    have hpc := foldl_processEntry_filter m level path children (s0, []) (s, []) h rfl
    have h1 : scanLoop m ((FSEntry.dir name children listErr, path, level) :: rest) s
        = scanLoop m (pushAll (processChildren m level path children s).2 rest)
            (processChildren m level path children s).1 := by
      simp [scanLoop, hle]
    have h2 : scanLoop 0 ((FSEntry.dir name children listErr, path, level) :: rest) s0
        = scanLoop 0 (pushAll (processChildren 0 level path children s0).2 rest)
            (processChildren 0 level path children s0).1 := by
      simp [scanLoop, hle]
    rw [h1, h2]
    have htv : (processChildren 0 level path children s0).2
        = (processChildren m level path children s).2 := hpc.2
    rw [htv]
    exact ih _ hpc.1
  | case4 name sz statErr fst snd rest s ih =>
    intro s0 h
    have h1 : scanLoop m ((FSEntry.file name sz statErr, fst, snd) :: rest) s
        = scanLoop m rest s := by simp [scanLoop]
    have h2 : scanLoop 0 ((FSEntry.file name sz statErr, fst, snd) :: rest) s0
        = scanLoop 0 rest s0 := by simp [scanLoop]
    rw [h1, h2]
    exact ih s0 h
  | case5 name fst snd rest s ih =>
    intro s0 h
    have h1 : scanLoop m ((FSEntry.symlink name, fst, snd) :: rest) s
        = scanLoop m rest s := by simp [scanLoop]
    have h2 : scanLoop 0 ((FSEntry.symlink name, fst, snd) :: rest) s0
        = scanLoop 0 rest s0 := by simp [scanLoop]
    rw [h1, h2]
    exact ih s0 h

theorem scan_getCat_filter (m : Nat) (rootPath : FPath) (root : FSEntry) :
    (∀ c, getCat (scan_files_and_dirs m rootPath root).fileCats c
      = (getCat (scan_files_and_dirs 0 rootPath root).fileCats c).filter
          (fun v => decide (m ≤ v.1)))
    ∧ (∀ c, getCat (scan_files_and_dirs m rootPath root).dirCats c
      = (getCat (scan_files_and_dirs 0 rootPath root).dirCats c).filter
          (fun v => decide (m ≤ v.1))) := by
  have hinit : FilterInv m (⟨[], [], 0, 0⟩ : ScanState) ⟨[], [], 0, 0⟩ :=
    ⟨rfl, rfl, fun c => by simp [getCat], fun c => by simp [getCat]⟩
  have h := scanLoop_filter m [(root, rootPath, rootPath.length)]
    ⟨[], [], 0, 0⟩ ⟨[], [], 0, 0⟩ hinit
  exact ⟨fun c => (h.2.2.1 c), fun c => (h.2.2.2 c)⟩

/-- C2 (amended): during a scan the per-category structure holds every
admitted observation (size at or above the threshold), not only the N
largest: for every category it is exactly the size-filtered sequence of
all observations the same scan would collect at threshold 0, with no
bound on its length. -/
theorem claim_C2_amended (m : Nat) (rootPath : FPath) (root : FSEntry) (c : String) :
    getCat (scan_files_and_dirs m rootPath root).fileCats c
        = (getCat (scan_files_and_dirs 0 rootPath root).fileCats c).filter
            (fun v => decide (m ≤ v.1))
    ∧ getCat (scan_files_and_dirs m rootPath root).dirCats c
        = (getCat (scan_files_and_dirs 0 rootPath root).dirCats c).filter
            (fun v => decide (m ≤ v.1)) := by
  have h := scan_getCat_filter m rootPath root
  exact ⟨h.1 c, h.2 c⟩

/-- C2 counterexample: on a tree of eleven admitted files of one category,
the in-scan bucket holds eleven entries, more than the shipped bound
DEFAULT_TOP_N = 10, so the during-scan structure is not bounded by N. -/
theorem claim_C2_counterexample :
    DEFAULT_TOP_N <
      (getCat (scan_files_and_dirs 0 ["/", "data"] elevenFiles).fileCats "Others").length := by
  have h1 : scan_files_and_dirs 0 ["/", "data"] elevenFiles
      = scanLoop 0
          (pushAll (processChildren 0 2 ["/", "data"] elevenFilesChildren ⟨[], [], 0, 0⟩).2 [])
          (processChildren 0 2 ["/", "data"] elevenFilesChildren ⟨[], [], 0, 0⟩).1 := by
    show scanLoop 0 [(FSEntry.dir "data" elevenFilesChildren false, ["/", "data"], 2)]
        ⟨[], [], 0, 0⟩ = _
    simp [scanLoop]
  have h2 : (processChildren 0 2 ["/", "data"] elevenFilesChildren ⟨[], [], 0, 0⟩).2
      = [] := rfl
  rw [h1, h2]
  have h3 : scanLoop 0 (pushAll [] [])
      (processChildren 0 2 ["/", "data"] elevenFilesChildren ⟨[], [], 0, 0⟩).1
      = (processChildren 0 2 ["/", "data"] elevenFilesChildren ⟨[], [], 0, 0⟩).1 := by
    show scanLoop 0 [] _ = _
    simp [scanLoop]
  rw [h3]
  decide

/-- C5: raising the threshold is monotone: everything admitted to a
category at the higher threshold was admitted at the lower one, for files
and for special directories alike. -/
theorem claim_C5 (t1 t2 : Nat) (rootPath : FPath) (root : FSEntry) (c : String)
    (h : t1 < t2) :
    getCat (scan_files_and_dirs t2 rootPath root).fileCats c
      ⊆ getCat (scan_files_and_dirs t1 rootPath root).fileCats c
    ∧ getCat (scan_files_and_dirs t2 rootPath root).dirCats c
      ⊆ getCat (scan_files_and_dirs t1 rootPath root).dirCats c := by
  have h2 := scan_getCat_filter t2 rootPath root
  have h1 := scan_getCat_filter t1 rootPath root
  constructor
  · rw [h2.1 c, h1.1 c]
    intro v hv
    rw [List.mem_filter] at hv ⊢
    refine ⟨hv.1, decide_eq_true ?_⟩
    have h3 := of_decide_eq_true hv.2
    omega
  · rw [h2.2 c, h1.2 c]
    intro v hv
    rw [List.mem_filter] at hv ⊢
    refine ⟨hv.1, decide_eq_true ?_⟩
    have h3 := of_decide_eq_true hv.2
    omega

/-- C5 witness: a concrete pair of thresholds 0 < 1 on a concrete tree. -/
theorem claim_C5_witness :
    getCat (scan_files_and_dirs 1 ["/"] (FSEntry.dir "d" [] false)).fileCats "Others"
      ⊆ getCat (scan_files_and_dirs 0 ["/"] (FSEntry.dir "d" [] false)).fileCats "Others" :=
  (claim_C5 0 1 ["/"] (FSEntry.dir "d" [] false) "Others" (by decide)).1

end Zpace
